import Mathlib

/-!
Verification of the typomation keyframe evaluator (src/src/main.rs).

The Rust code animates scalar and boolean properties by walking an ordered
list of keyframes.  The `f32` scalar type of the source is modelled by `ℚ`:
every constant appearing in the claims (0.0, 5.0, 250.0, 500.0, …) is exactly
representable in `f32`, and all arithmetic the claims exercise is exact, so
the rational model agrees with the floating-point code on them.  Division by
zero is the one point of divergence (`ℚ` yields 0 where `f32` yields NaN/∞);
it is flagged where relevant.
-/

namespace Typomation

/-- `type Scalar = f32;` — modelled by `ℚ` (see module comment). -/
abbrev Scalar := ℚ

/-- Easing curves from the external `interpolation` crate (a collaborator,
not part of this repository).  Modelled here by the polynomial members of
the crate's `EaseFunction` family, with their standard unclamped formulas;
the transcendental curves (sine, circular, exponential, elastic, back,
bounce) are not representable over `ℚ` and no claim depends on them.  Every
claim below uses at most the facts `calc e 0 = 0` and `calc e 1 = 1`, which
hold for every curve of the crate. -/
inductive EaseFunction where
  | quadraticIn
  | quadraticOut
  | quadraticInOut
  | cubicIn
  | cubicOut
  | cubicInOut
deriving DecidableEq, Repr

/-- `interpolation.calc(ease)` — the eased progress value. -/
def EaseFunction.calc (f : EaseFunction) (p : Scalar) : Scalar :=
  match f with
  | .quadraticIn => p * p
  | .quadraticOut => -(p * (p - 2))
  | .quadraticInOut =>
      if p < 1 / 2 then 2 * p * p else -2 * p * p + 4 * p - 1
  | .cubicIn => p * p * p
  | .cubicOut => (p - 1) * (p - 1) * (p - 1) + 1
  | .cubicInOut =>
      if p < 1 / 2 then 4 * p * p * p
      else (2 * p - 2) * (2 * p - 2) * (2 * p - 2) / 2 + 1

/-- `a.lerp(&b, &t)` of the `interpolation` crate: `a + (b - a) * t`. -/
def lerp (a b t : Scalar) : Scalar := a + (b - a) * t

/-- `struct Key { value, duration, ease }` (main.rs:107-111). -/
structure Key where
  value : Scalar
  duration : Scalar
  ease : Option EaseFunction
deriving DecidableEq, Repr

/-- `struct BoolKey { value, duration }` (main.rs:102-105). -/
structure BoolKey where
  value : Bool
  duration : Scalar
deriving DecidableEq, Repr

/-- `Key::interpolate` (main.rs:113-123): divide the remaining local time by
this key's duration, optionally ease it, and lerp from the previous key's
value to this key's value. -/
def Key.interpolate (self previous : Key) (duration : Scalar) : Scalar :=
  let i := duration / self.duration
  match self.ease with
  | some ease => lerp previous.value self.value (EaseFunction.calc ease i)
  | none => lerp previous.value self.value i

/-- `struct Track { keys: Vec<Key> }` (main.rs:130-133). -/
structure Track where
  keys : List Key
deriving DecidableEq, Repr

/-- `Track::new` (main.rs:136-138): wraps the key list, no validation. -/
def Track.new (keys : List Key) : Track := ⟨keys⟩

/-- The for-loop of `Track::value` (main.rs:145-153), with the mutable
locals `duration`, `value` and `previous_key` passed explicitly. -/
def Track.walk (previous : Key) (duration : Scalar) (value : Option Scalar) :
    List Key → Option Scalar
  | [] => value
  | key :: rest =>
      if duration > key.duration then
        Track.walk key (duration - key.duration) (some key.value) rest
      else
        some (key.interpolate previous duration)

/-- `Track::value` (main.rs:140-157): take the first key as `previous_key`
(returning the initial `None` when there is none) and walk the rest. -/
def Track.value (t : Track) (duration : Scalar) : Option Scalar :=
  match t.keys with
  | [] => none
  | previous :: rest => Track.walk previous duration none rest

/-- `struct BoolTrack { keys: Vec<BoolKey> }` (main.rs:125-128). -/
structure BoolTrack where
  keys : List BoolKey
deriving DecidableEq, Repr

/-- `BoolTrack::new` (main.rs:161-163). -/
def BoolTrack.new (keys : List BoolKey) : BoolTrack := ⟨keys⟩

/-- The for-loop of `BoolTrack::value` (main.rs:169-178).  Identical walk to
the scalar track except that the early-return branch yields
`previous_key.value` instead of an interpolation into `key`. -/
def BoolTrack.walk (previous : BoolKey) (duration : Scalar)
    (value : Option Bool) : List BoolKey → Option Bool
  | [] => value
  | key :: rest =>
      if duration > key.duration then
        BoolTrack.walk key (duration - key.duration) (some key.value) rest
      else
        some previous.value

/-- `BoolTrack::value` (main.rs:165-182). -/
def BoolTrack.value (t : BoolTrack) (duration : Scalar) : Option Bool :=
  match t.keys with
  | [] => none
  | previous :: rest => BoolTrack.walk previous duration none rest

/-- Sum of the durations of a key list (used to state the tail-of-timeline
claims; the walk consumes exactly these durations of the 2nd..Nth keys). -/
def sumDur (ks : List Key) : Scalar := (ks.map Key.duration).sum

/-- The `position_x` track built by `setup_system` (main.rs:59-70):
keys `[{0.0, dur 0.0, no ease}, {500.0, dur 10.0, no ease}]`. -/
def setupPositionX : Track :=
  Track.new [⟨0, 0, none⟩, ⟨500, 10, none⟩]

/-! ### Basic facts about the easing family and interpolation -/

/-- Every easing curve of the family maps progress `0` to `0`. -/
theorem EaseFunction.calc_zero (f : EaseFunction) : f.calc 0 = 0 := by
  cases f <;> norm_num [EaseFunction.calc]

/-- Every easing curve of the family maps progress `1` to `1`. -/
theorem EaseFunction.calc_one (f : EaseFunction) : f.calc 1 = 1 := by
  cases f <;> norm_num [EaseFunction.calc]

theorem lerp_zero (a b : Scalar) : lerp a b 0 = a := by
  simp [lerp]

theorem lerp_one (a b : Scalar) : lerp a b 1 = b := by
  simp [lerp]

/-- Evaluating a key at local time `0` yields the previous key's value
(the quotient `0 / duration` is `0`, every easing curve fixes `0`). -/
theorem Key.interpolate_at_zero (k p : Key) : k.interpolate p 0 = p.value := by
  unfold Key.interpolate
  cases k.ease <;>
    simp [zero_div, EaseFunction.calc_zero, lerp_zero]

/-- Evaluating a key at local time equal to its (nonzero) duration yields the
key's own value (the quotient is `1`, every easing curve fixes `1`). -/
theorem Key.interpolate_at_duration (k p : Key) (h : k.duration ≠ 0) :
    k.interpolate p k.duration = k.value := by
  unfold Key.interpolate
  cases k.ease <;>
    simp [div_self h, EaseFunction.calc_one, lerp_one]

/-! ### Facts about the walk -/

theorem sumDur_nil : sumDur [] = 0 := rfl

theorem sumDur_cons (k : Key) (ks : List Key) :
    sumDur (k :: ks) = k.duration + sumDur ks := by
  simp [sumDur]

theorem sumDur_nonneg (ks : List Key) (h : ∀ k ∈ ks, 0 ≤ k.duration) :
    0 ≤ sumDur ks := by
  induction ks with
  | nil => simp [sumDur_nil]
  | cons k rest ih =>
      rw [sumDur_cons]
      have hk := h k (by simp)
      have hrest := ih (fun j hj => h j (by simp [hj]))
      linarith

theorem sumDur_pos (ks : List Key) (hne : ks ≠ [])
    (h : ∀ k ∈ ks, 0 < k.duration) : 0 < sumDur ks := by
  cases ks with
  | nil => exact absurd rfl hne
  | cons k rest =>
      rw [sumDur_cons]
      have hk := h k (by simp)
      have hrest : 0 ≤ sumDur rest :=
        sumDur_nonneg rest (fun j hj => le_of_lt (h j (by simp [hj])))
      linarith

/-- If the remaining time is at least the total duration of the keys still to
be walked (all positive), the walk ends on the last key's value: every key but
the last is consumed by the continue-branch, and the last key either is
consumed as well or is hit exactly at its boundary, where interpolation
returns its value. -/
theorem Track.walk_of_sumDur_le (ks : List Key) (hne : ks ≠ [])
    (hpos : ∀ k ∈ ks, 0 < k.duration) (p : Key) (d : Scalar)
    (v : Option Scalar) (hd : sumDur ks ≤ d) :
    Track.walk p d v ks = some ((ks.getLast hne).value) := by
  induction ks generalizing p d v with
  | nil => exact absurd rfl hne
  | cons k rest ih =>
      cases rest with
      | nil =>
          have hdk : k.duration ≤ d := by
            have := hd; rw [sumDur_cons, sumDur_nil] at this; linarith
          by_cases hgt : d > k.duration
          · simp [Track.walk, hgt]
          · have hEq : d = k.duration := le_antisymm (not_lt.1 hgt) hdk
            have hk0 : k.duration ≠ 0 :=
              ne_of_gt (hpos k (by simp))
            simp [Track.walk, hgt, hEq, Key.interpolate_at_duration k p hk0]
      | cons k2 rest2 =>
          have hrest : 0 < sumDur (k2 :: rest2) :=
            sumDur_pos _ (by simp) (fun j hj => hpos j (by simp [hj]))
          have hgt : d > k.duration := by
            rw [sumDur_cons] at hd; linarith
          rw [List.getLast_cons_cons]
          have hd2 : sumDur (k2 :: rest2) ≤ d - k.duration := by
            rw [sumDur_cons] at hd; linarith
          simpa [Track.walk, hgt] using
            ih (by simp) (fun j hj => hpos j (by simp [hj]))
              k (d - k.duration) (some k.value) hd2

/-- Walking the prefix `pre` with exactly `sumDur pre + k.duration` time left
reaches `k` with `k.duration` remaining and early-returns `k`'s own value:
each prefix key is consumed strictly (the time left beyond it is positive
because `k.duration > 0`), and at `k` the boundary interpolation yields
`k.value`. -/
theorem Track.walk_boundary (k : Key) (post : List Key)
    (hd : 0 < k.duration) (pre : List Key)
    (hpre : ∀ j ∈ pre, 0 ≤ j.duration) (p : Key) (v : Option Scalar) :
    Track.walk p (sumDur pre + k.duration) v (pre ++ k :: post) =
      some k.value := by
  induction pre generalizing p v with
  | nil =>
      have hgt : ¬ (sumDur [] + k.duration > k.duration) := by
        rw [sumDur_nil]; simp
      have hk0 : k.duration ≠ 0 := ne_of_gt hd
      simp [Track.walk, hgt, sumDur_nil,
        Key.interpolate_at_duration k p hk0]
  | cons j pre' ih =>
      have hj : 0 ≤ j.duration := hpre j (by simp)
      have hpre' : 0 ≤ sumDur pre' :=
        sumDur_nonneg pre' (fun a ha => hpre a (by simp [ha]))
      have hgt : sumDur (j :: pre') + k.duration > j.duration := by
        rw [sumDur_cons]; linarith
      have harith :
          sumDur (j :: pre') + k.duration - j.duration =
            sumDur pre' + k.duration := by
        rw [sumDur_cons]; ring
      simpa [Track.walk, hgt, harith] using
        ih (fun a ha => hpre a (by simp [ha])) j (some j.value)

/-- Once the loop-carried `value` is `some`, the walk can only return `some`:
the early-return branch returns `some`, and the continue-branch keeps a
`some` fallback. -/
theorem Track.walk_some_isSome (ks : List Key) (p : Key) (d : Scalar)
    (x : Scalar) : (Track.walk p d (some x) ks).isSome := by
  induction ks generalizing p d x with
  | nil => rfl
  | cons k rest ih =>
      by_cases hgt : d > k.duration
      · simpa [Track.walk, hgt] using ih k (d - k.duration) k.value
      · simp [Track.walk, hgt]

/-- A walk over a non-empty key list always produces a value, whatever the
remaining time (the first step either early-returns or installs a `some`
fallback). -/
theorem Track.walk_isSome (ks : List Key) (hne : ks ≠ []) (p : Key)
    (d : Scalar) (v : Option Scalar) : (Track.walk p d v ks).isSome := by
  cases ks with
  | nil => exact absurd rfl hne
  | cons k rest =>
      by_cases hgt : d > k.duration
      · simpa [Track.walk, hgt] using
          Track.walk_some_isSome rest k (d - k.duration) k.value
      · simp [Track.walk, hgt]

/-- Boolean analogue of `Track.walk_some_isSome`. -/
theorem BoolTrack.bool_walk_some_isSome (ks : List BoolKey) (p : BoolKey)
    (d : Scalar) (x : Bool) : (BoolTrack.walk p d (some x) ks).isSome := by
  induction ks generalizing p d x with
  | nil => rfl
  | cons k rest ih =>
      by_cases hgt : d > k.duration
      · simpa [BoolTrack.walk, hgt] using ih k (d - k.duration) k.value
      · simp [BoolTrack.walk, hgt]

/-- Boolean analogue of `Track.walk_isSome`. -/
theorem BoolTrack.bool_walk_isSome (ks : List BoolKey) (hne : ks ≠ [])
    (p : BoolKey) (d : Scalar) (v : Option Bool) :
    (BoolTrack.walk p d v ks).isSome := by
  cases ks with
  | nil => exact absurd rfl hne
  | cons k rest =>
      by_cases hgt : d > k.duration
      · simpa [BoolTrack.walk, hgt] using
          BoolTrack.bool_walk_some_isSome rest k (d - k.duration) k.value
      · simp [BoolTrack.walk, hgt]

/-- The walk reads its `previous` key only through `previous.value`
(in `Key.interpolate`, `self.duration` and `self.ease` come from the key
being walked, never from `previous`). -/
theorem Track.walk_congr_prev (ks : List Key) (p q : Key)
    (h : p.value = q.value) (d : Scalar) (v : Option Scalar) :
    Track.walk p d v ks = Track.walk q d v ks := by
  cases ks with
  | nil => rfl
  | cons k rest =>
      by_cases hgt : d > k.duration
      · simp [Track.walk, hgt]
      · simp [Track.walk, hgt, Key.interpolate, h]

/-- Boolean analogue of `Track.walk_congr_prev`: the early-return branch
returns `previous.value`, everything else ignores `previous`. -/
theorem BoolTrack.bool_walk_congr_prev (ks : List BoolKey) (p q : BoolKey)
    (h : p.value = q.value) (d : Scalar) (v : Option Bool) :
    BoolTrack.walk p d v ks = BoolTrack.walk q d v ks := by
  cases ks with
  | nil => rfl
  | cons k rest =>
      by_cases hgt : d > k.duration
      · simp [BoolTrack.walk, hgt]
      · simp [BoolTrack.walk, hgt, h]

/-! ### The per-frame property-writing systems

The bevy `Transform` and `Sprite` components are collaborators, modelled at
the level of the values the two systems read and write.  Two collaborator
computations re-encode rather than copy their inputs and involve functions
not representable over `ℚ`:

* the rotation write goes through `Quat::from_euler(EulerRot::XYZ, x, y, z)`
  (glam trigonometry), fed with the *raw components* of the old quaternion
  as `unwrap_or` fallbacks — so a `None` track does not reproduce the old
  quaternion;
* the color write rebuilds the color with `Color::rgba_linear` from the
  sRGB channel accessors `r()/g()/b()/a()` of the old color — changing the
  stored variant (and, for a stored linear color, running bevy's
  `linear_to_nonlinear_srgb` gamma curve on the way out).

Both re-encoders are therefore passed to the systems as explicit function
arguments; the theorems below hold for (or refute the claim for) *every*
such function, and the closed statements instantiate them with model
instances that agree exactly with glam/bevy at the only points they are
evaluated. -/

/-- Collaborator model of `bevy::Vec3`. -/
structure Vec3 where
  x : Scalar
  y : Scalar
  z : Scalar
deriving DecidableEq

/-- Collaborator model of `bevy::Vec2`. -/
structure Vec2 where
  x : Scalar
  y : Scalar
deriving DecidableEq

/-- Collaborator model of `glam::Quat`, componentwise (its `PartialEq` is
componentwise too). -/
structure Quat where
  x : Scalar
  y : Scalar
  z : Scalar
  w : Scalar
deriving DecidableEq

/-- Collaborator model of `bevy::Color`, restricted to the two variants the
program can hold: the sprite starts in the sRGB `Rgba` variant
(`Color::WHITE`) and `sprite_track_system` only ever writes `RgbaLinear`
(the `Hsla` variant never occurs). -/
inductive Color where
  | rgba (red green blue alpha : Scalar)
  | rgbaLinear (red green blue alpha : Scalar)
deriving DecidableEq

/-- `Color::r()`: red in sRGB colorspace — the stored field for an `Rgba`
color, and `linear_to_nonlinear_srgb` of the stored field for an
`RgbaLinear` color; that gamma conversion is the collaborator argument
`conv`. -/
def Color.r (c : Color) (conv : Scalar → Scalar) : Scalar :=
  match c with
  | .rgba red _ _ _ => red
  | .rgbaLinear red _ _ _ => conv red

/-- `Color::g()` (see `Color.r`). -/
def Color.g (c : Color) (conv : Scalar → Scalar) : Scalar :=
  match c with
  | .rgba _ green _ _ => green
  | .rgbaLinear _ green _ _ => conv green

/-- `Color::b()` (see `Color.r`). -/
def Color.b (c : Color) (conv : Scalar → Scalar) : Scalar :=
  match c with
  | .rgba _ _ blue _ => blue
  | .rgbaLinear _ _ blue _ => conv blue

/-- `Color::a()`: the alpha channel, identical in both colorspaces. -/
def Color.a (c : Color) : Scalar :=
  match c with
  | .rgba _ _ _ alpha => alpha
  | .rgbaLinear _ _ _ alpha => alpha

/-- Collaborator model of `bevy::sprite::Anchor`. -/
inductive Anchor where
  | center
  | bottomLeft
  | bottomCenter
  | bottomRight
  | centerLeft
  | centerRight
  | topLeft
  | topCenter
  | topRight
  | custom (point : Vec2)
deriving DecidableEq

/-- `Anchor::as_vec()` — all values exact in `f32`. -/
def Anchor.asVec : Anchor → Vec2
  | .center => ⟨0, 0⟩
  | .bottomLeft => ⟨-(1/2), -(1/2)⟩
  | .bottomCenter => ⟨0, -(1/2)⟩
  | .bottomRight => ⟨1/2, -(1/2)⟩
  | .centerLeft => ⟨-(1/2), 0⟩
  | .centerRight => ⟨1/2, 0⟩
  | .topLeft => ⟨-(1/2), 1/2⟩
  | .topCenter => ⟨0, 1/2⟩
  | .topRight => ⟨1/2, 1/2⟩
  | .custom point => point

/-- Collaborator model of `bevy::Transform`: the three fields the system
reads and writes, with `rotation` a quaternion as in bevy. -/
structure Transform where
  translation : Vec3
  rotation : Quat
  scale : Vec3
deriving DecidableEq

/-- `struct TransformTrack` (main.rs:77-88): one scalar track per
transform field. -/
structure TransformTrack where
  position_x : Track
  position_y : Track
  position_z : Track
  rotation_x : Track
  rotation_y : Track
  rotation_z : Track
  scale_x : Track
  scale_y : Track
  scale_z : Track

/-- Collaborator model of `bevy::Sprite`: the fields the system reads and
writes, with `color` a `Color` value and `anchor` an `Anchor` value as in
bevy. -/
structure Sprite where
  color : Color
  flip_x : Bool
  flip_y : Bool
  anchor : Anchor
deriving DecidableEq

/-- `struct SpriteTrack` (main.rs:90-100). -/
structure SpriteTrack where
  color_r : Track
  color_g : Track
  color_b : Track
  color_a : Track
  flip_x : BoolTrack
  flip_y : BoolTrack
  anchor_x : Track
  anchor_y : Track

/-- `transform_track_system` (main.rs:200-229), per queried entity.
Translation and scale fields become the track's value with `unwrap_or`
falling back to the field read before the writes; the rotation is rebuilt
as `Quat::from_euler(EulerRot::XYZ, ·, ·, ·)` — the collaborator argument
`fromEuler` — of three Euler angles whose `unwrap_or` fallbacks are the raw
`x`/`y`/`z` components of the quaternion read before the writes. -/
def transform_track_system (fromEuler : Scalar → Scalar → Scalar → Quat)
    (duration : Scalar) (transform : Transform) (track : TransformTrack) :
    Transform :=
  let translation := transform.translation
  let rotation := transform.rotation
  let scale := transform.scale
  { translation :=
      ⟨(track.position_x.value duration).getD translation.x,
       (track.position_y.value duration).getD translation.y,
       (track.position_z.value duration).getD translation.z⟩
    scale :=
      ⟨(track.scale_x.value duration).getD scale.x,
       (track.scale_y.value duration).getD scale.y,
       (track.scale_z.value duration).getD scale.z⟩
    rotation :=
      fromEuler ((track.rotation_x.value duration).getD rotation.x)
        ((track.rotation_y.value duration).getD rotation.y)
        ((track.rotation_z.value duration).getD rotation.z) }

/-- `sprite_track_system` (main.rs:231-252), per queried entity.  The color
is rebuilt with `Color::rgba_linear` from the saved color's sRGB channel
accessors (gamma conversion `conv`, see `Color.r`); the anchor is rebuilt
as `Anchor::Custom` of a vector whose components fall back to
`sprite.anchor.as_vec()`. -/
def sprite_track_system (conv : Scalar → Scalar) (duration : Scalar)
    (sprite : Sprite) (track : SpriteTrack) : Sprite :=
  let color := sprite.color
  { color :=
      Color.rgbaLinear
        ((track.color_r.value duration).getD (color.r conv))
        ((track.color_g.value duration).getD (color.g conv))
        ((track.color_b.value duration).getD (color.b conv))
        ((track.color_a.value duration).getD color.a)
    flip_x := (track.flip_x.value duration).getD sprite.flip_x
    flip_y := (track.flip_y.value duration).getD sprite.flip_y
    anchor :=
      Anchor.custom
        ⟨(track.anchor_x.value duration).getD (sprite.anchor.asVec).x,
         (track.anchor_y.value duration).getD (sprite.anchor.asVec).y⟩ }

/-- Model instance standing in for `Quat::from_euler(EulerRot::XYZ, x, y,
z)` in the closed statements below.  Its trigonometry is not representable
over `ℚ`; every closed statement evaluates it only at `(0, 0, 0)`, where
glam returns exactly the identity quaternion (trigonometry of `0` is exact
in `f32`) — the value this instance takes there.  Away from the origin it
is the first-order small-angle quaternion, a stand-in nothing below
evaluates. -/
def fromEulerModel (x y z : Scalar) : Quat := ⟨x / 2, y / 2, z / 2, 1⟩

/-- Model instance standing in for bevy's `linear_to_nonlinear_srgb` gamma
conversion in the closed statements below.  Exact for `p ≤ 0` (identity)
and on the linear segment `p ≤ 0.0031308` (`p * 12.92`); the power-law
branch `1.055 * p^(1/2.4) - 0.055` is not representable over `ℚ` and is
replaced by a stand-in.  No closed statement below evaluates the
conversion at all: they read channels of colors stored in the sRGB `rgba`
variant, whose accessors return the field unconverted. -/
def linearToSrgbModel (p : Scalar) : Scalar :=
  if p ≤ 0 then p
  else if p ≤ 31308 / 10000000 then p * (1292 / 100)
  else p

/-- Concrete transform used to witness the fallback policy. -/
def sampleTransform : Transform := ⟨⟨1, 2, 3⟩, ⟨0, 0, 0, 1⟩, ⟨7, 8, 9⟩⟩

/-- Concrete sprite used to witness the fallback policy. -/
def sampleSprite : Sprite :=
  ⟨Color.rgba (1/2) (1/3) (1/4) 1, true, false, Anchor.custom ⟨10, 11⟩⟩

/-- Transform whose rotation is the quaternion `(0, 0, 0, -1)`: its raw
components fed through `from_euler` give `from_euler(0,0,0)`, the identity
quaternion `(0, 0, 0, 1)` — a different `Quat` value. -/
def counterTransform : Transform := ⟨⟨1, 2, 3⟩, ⟨0, 0, 0, -1⟩, ⟨4, 5, 6⟩⟩

/-- Sprite holding an sRGB-variant color and the default `Anchor::Center`:
rebuilding them as `RgbaLinear` and `Anchor::Custom` changes both values. -/
def counterSprite : Sprite :=
  ⟨Color.rgba (1/2) (1/2) (1/2) 1, false, false, Anchor.center⟩

/-- A `TransformTrack` whose tracks are all empty (every evaluation yields
`None`). -/
def emptyTransformTrack : TransformTrack :=
  ⟨Track.new [], Track.new [], Track.new [], Track.new [], Track.new [],
   Track.new [], Track.new [], Track.new [], Track.new []⟩

/-- A `SpriteTrack` whose tracks are all empty. -/
def emptySpriteTrack : SpriteTrack :=
  ⟨Track.new [], Track.new [], Track.new [], Track.new [],
   BoolTrack.new [], BoolTrack.new [], Track.new [], Track.new []⟩

/-- A scalar track evaluates to `none` exactly when it has fewer than two
keys: with no or one key the walk body never runs and the initial `None`
is returned; with two or more keys the first loop iteration either
early-returns `some` or installs a `some` fallback. -/
theorem Track.value_eq_none_iff (t : Track) (e : Scalar) :
    t.value e = none ↔ t.keys.length < 2 := by
  obtain ⟨ks⟩ := t
  rcases ks with _ | ⟨k1, _ | ⟨k2, rest⟩⟩
  · simp [Track.value]
  · simp [Track.value, Track.walk]
  · have hs := Track.walk_isSome (k2 :: rest) (by simp) k1 e none
    have hne := Option.isSome_iff_ne_none.mp hs
    simp only [Track.value]
    constructor
    · exact fun hn => absurd hn hne
    · intro hlt
      rw [List.length_cons, List.length_cons] at hlt
      omega

/-- Boolean analogue of `Track.value_eq_none_iff`. -/
theorem BoolTrack.bool_value_eq_none_iff (t : BoolTrack) (e : Scalar) :
    t.value e = none ↔ t.keys.length < 2 := by
  obtain ⟨ks⟩ := t
  rcases ks with _ | ⟨k1, _ | ⟨k2, rest⟩⟩
  · simp [BoolTrack.value]
  · simp [BoolTrack.value, BoolTrack.walk]
  · have hs := BoolTrack.bool_walk_isSome (k2 :: rest) (by simp) k1 e none
    have hne := Option.isSome_iff_ne_none.mp hs
    simp only [BoolTrack.value]
    constructor
    · exact fun hn => absurd hn hne
    · intro hlt
      rw [List.length_cons, List.length_cons] at hlt
      omega

/-! ### The claims -/

/-- Claim C1, counterexample: for the boolean track with keys
`[{false, dur 0}, {true, dur 5}, {false, dur 5}]`, `value(11.0)` is *not*
`Some(true)` as the claim states: both real segments are consumed by the
continue-branch (11 > 5, then 6 > 5), so the fallback returned at the tail
is the *last* key's value `false`, not `true`. -/
theorem claim_C1_counterexample :
    (BoolTrack.new [⟨false, 0⟩, ⟨true, 5⟩, ⟨false, 5⟩]).value 11 ≠
      some true := by
  norm_num [BoolTrack.new, BoolTrack.value, BoolTrack.walk]

/-- Claim C1 as amended: for the boolean track with keys
`[{false, dur 0}, {true, dur 5}, {false, dur 5}]`, `value(2.0) = Some false`
(still the previous value), `value(6.0) = Some true` (switched after
crossing the first real boundary), and `value(11.0) = Some false` (the walk
exhausts and returns the fallback set by the final continue-branch, which is
the last key's value `false`). -/
theorem claim_C1_bool_scenario :
    (BoolTrack.new [⟨false, 0⟩, ⟨true, 5⟩, ⟨false, 5⟩]).value 2 =
        some false ∧
    (BoolTrack.new [⟨false, 0⟩, ⟨true, 5⟩, ⟨false, 5⟩]).value 6 =
        some true ∧
    (BoolTrack.new [⟨false, 0⟩, ⟨true, 5⟩, ⟨false, 5⟩]).value 11 =
        some false := by
  refine ⟨?_, ?_, ?_⟩ <;>
    norm_num [BoolTrack.new, BoolTrack.value, BoolTrack.walk]

/-- Claim C2: the code side of the divergence.  `Track::new` performs no
validation whatsoever — it stores the key list as given, including a
non-first key with duration `0` (for which evaluation then divides by zero,
NaN in the `f32` code).  The claimed fail-fast rejection does not exist. -/
theorem claim_C2_construction_unvalidated :
    (Track.new [⟨0, 0, none⟩, ⟨1, 0, none⟩]).keys =
      [⟨0, 0, none⟩, ⟨1, 0, none⟩] := rfl

/-- Claim C3: for the scalar track `[{0.0, dur 0.0}, {500.0, dur 10.0}]`
built by `setup_system`, `value(0.0) = Some 0`, `value(5.0) = Some 250`,
`value(10.0) = Some 500` and `value(20.0) = Some 500`. -/
theorem claim_C3_setup_scenario :
    setupPositionX.value 0 = some 0 ∧
    setupPositionX.value 5 = some 250 ∧
    setupPositionX.value 10 = some 500 ∧
    setupPositionX.value 20 = some 500 := by
  refine ⟨?_, ?_, ?_, ?_⟩ <;>
    norm_num [setupPositionX, Track.new, Track.value, Track.walk,
      Key.interpolate, lerp]

/-- Claim C4: a scalar track with fewer than two keys evaluates to `none`
for every elapsed time `≥ 0` (the walk never reads a second key). -/
theorem claim_C4_short_track_none (t : Track) (h : t.keys.length < 2)
    (e : Scalar) (he : 0 ≤ e) : t.value e = none := by
  obtain ⟨ks⟩ := t
  rcases ks with _ | ⟨k1, _ | ⟨k2, rest⟩⟩
  · rfl
  · rfl
  · rw [List.length_cons, List.length_cons] at h
    omega

/-- Claim C4 witness: the one-key track `[{1, dur 0}]` at elapsed `3`. -/
theorem claim_C4_witness :
    (Track.new [⟨1, 0, none⟩]).keys.length < 2 ∧ (0 : Scalar) ≤ 3 ∧
    (Track.new [⟨1, 0, none⟩]).value 3 = none :=
  ⟨by simp [Track.new], by norm_num,
    claim_C4_short_track_none (Track.new [⟨1, 0, none⟩])
      (by simp [Track.new]) 3 (by norm_num)⟩

/-- Claim C5, counterexample: the claim quantifies over *every* track with
at least two keys, but for `[{0, dur 0}, {1, dur 1}, {2, dur 0}]` (last key
of duration `0`, which construction never rejects) and
`elapsed = 1 = sum of the non-first durations`, the walk stops at the middle
key's exact boundary and returns `Some 1`, not the last key's value `2`. -/
theorem claim_C5_counterexample :
    sumDur [(⟨1, 1, none⟩ : Key), ⟨2, 0, none⟩] ≤ 1 ∧
    (Track.new [⟨0, 0, none⟩, ⟨1, 1, none⟩, ⟨2, 0, none⟩]).value 1 =
        some 1 ∧
    (Track.new [⟨0, 0, none⟩, ⟨1, 1, none⟩, ⟨2, 0, none⟩]).value 1 ≠
        some 2 := by
  refine ⟨by norm_num [sumDur], ?_, ?_⟩ <;>
    norm_num [Track.new, Track.value, Track.walk, Key.interpolate, lerp]

/-- Claim C5 as amended: for every scalar track with at least two keys,
*all of whose non-first keys have positive duration*, and every elapsed time
at least the sum of the non-first durations, `value` returns the last key's
value (and hence holds it for every larger elapsed time). -/
theorem claim_C5_tail_holds_last (k0 : Key) (ks : List Key) (hne : ks ≠ [])
    (hpos : ∀ k ∈ ks, 0 < k.duration) (e : Scalar) (he : sumDur ks ≤ e) :
    Track.value ⟨k0 :: ks⟩ e = some ((ks.getLast hne).value) :=
  Track.walk_of_sumDur_le ks hne hpos k0 e none he

/-- Claim C5 witness: track `[{0, dur 0}, {5, dur 2}]` at elapsed `3 ≥ 2`
returns the last key's value `5`. -/
theorem claim_C5_witness :
    ([(⟨5, 2, none⟩ : Key)] ≠ []) ∧
    (∀ k ∈ [(⟨5, 2, none⟩ : Key)], 0 < k.duration) ∧
    sumDur [(⟨5, 2, none⟩ : Key)] ≤ 3 ∧
    Track.value ⟨[⟨0, 0, none⟩, ⟨5, 2, none⟩]⟩ 3 = some 5 := by
  have hpos : ∀ k ∈ [(⟨5, 2, none⟩ : Key)], 0 < k.duration := by
    intro k hk
    rw [List.mem_singleton] at hk
    subst hk
    norm_num
  have hsum : sumDur [(⟨5, 2, none⟩ : Key)] ≤ 3 := by norm_num [sumDur]
  exact ⟨by simp, hpos, hsum,
    claim_C5_tail_holds_last ⟨0, 0, none⟩ [⟨5, 2, none⟩] (by simp) hpos
      3 hsum⟩

/-- Claim C6: for a scalar track with at least two keys whose second key has
positive duration, `value(0)` is exactly the first key's value: the walk
early-returns on the second key with local progress `0 / duration = 0`, and
every easing curve fixes `0`, so the lerp yields its start point. -/
theorem claim_C6_value_at_zero (k0 k1 : Key) (rest : List Key)
    (h : 0 < k1.duration) :
    Track.value ⟨k0 :: k1 :: rest⟩ 0 = some k0.value := by
  have hgt : ¬ ((0 : Scalar) > k1.duration) := by linarith
  simp [Track.value, Track.walk, hgt, Key.interpolate_at_zero]

/-- Claim C6 witness: track `[{7, dur 0}, {9, dur 4}]` at elapsed `0`. -/
theorem claim_C6_witness :
    (0 : Scalar) < (4 : Scalar) ∧
    Track.value ⟨[⟨7, 0, none⟩, ⟨9, 4, none⟩]⟩ 0 = some 7 :=
  ⟨by norm_num,
    claim_C6_value_at_zero ⟨7, 0, none⟩ ⟨9, 4, none⟩ [] (by norm_num)⟩

/-- Claim C7, counterexample: quantified over *every* scalar track, the
boundary-continuity claim fails.  In `[{5, dur 0}, {7, dur 0}]` at elapsed
`0` the premise is realized — the incoming key `{7, dur 0}` has no ease and
the local remaining time `0` equals its duration — yet the evaluation is
*not* `some 7`: the code computes `0.0 / 0.0` (NaN in the `f32` source; `0`
in the rational model, so the lerp returns its start `5`). -/
theorem claim_C7_counterexample :
    ((⟨7, 0, none⟩ : Key).ease = none) ∧
    sumDur ([] : List Key) + (⟨7, 0, none⟩ : Key).duration = (0 : Scalar) ∧
    Track.value ⟨[⟨5, 0, none⟩, ⟨7, 0, none⟩]⟩ 0 = some 5 ∧
    Track.value ⟨[⟨5, 0, none⟩, ⟨7, 0, none⟩]⟩ 0 ≠ some 7 := by
  refine ⟨rfl, by norm_num [sumDur], ?_, ?_⟩ <;>
    norm_num [Track.value, Track.walk, Key.interpolate, lerp]

/-- Claim C7 as amended: boundary continuity for segments of positive
duration.  For any scalar track, any key `k` after the first with no easing
curve and *positive* duration (the keys walked before it having the data
model's non-negative durations), evaluating at the elapsed time whose
local remaining time equals `k.duration` — that is,
`sum of the durations walked before k` plus `k.duration` — returns exactly
`k.value`: the quotient is `duration/duration = 1` and the lerp ends at its
endpoint. -/
theorem claim_C7_boundary_continuity (k0 : Key) (pre : List Key) (k : Key)
    (post : List Key) (hease : k.ease = none) (hd : 0 < k.duration)
    (hpre : ∀ j ∈ pre, 0 ≤ j.duration) :
    Track.value ⟨k0 :: (pre ++ k :: post)⟩ (sumDur pre + k.duration) =
      some k.value :=
  Track.walk_boundary k post hd pre hpre k0 none

/-- Claim C7 witness: track `[{0, dur 0}, {3, dur 1}, {10, dur 2}]` at the
boundary elapsed time `1 + 2 = 3` returns `Some 10`. -/
theorem claim_C7_witness :
    ((⟨10, 2, none⟩ : Key).ease = none) ∧ ((0 : Scalar) < (2 : Scalar)) ∧
    (∀ j ∈ [(⟨3, 1, none⟩ : Key)], 0 ≤ j.duration) ∧
    Track.value ⟨[⟨0, 0, none⟩, ⟨3, 1, none⟩, ⟨10, 2, none⟩]⟩ 3 =
      some 10 := by
  have hpre : ∀ j ∈ [(⟨3, 1, none⟩ : Key)], 0 ≤ j.duration := by
    intro j hj
    rw [List.mem_singleton] at hj
    subst hj
    norm_num
  have h := claim_C7_boundary_continuity ⟨0, 0, none⟩ [⟨3, 1, none⟩]
    ⟨10, 2, none⟩ [] rfl (by norm_num) hpre
  have e3 : sumDur [(⟨3, 1, none⟩ : Key)] + (⟨10, 2, none⟩ : Key).duration =
      (3 : Scalar) := by norm_num [sumDur]
  rw [e3] at h
  exact ⟨rfl, by norm_num, hpre, h⟩

/-- Claim C8, counterexample: with every track empty (all evaluations
`None`), neither the rotation nor the color nor the anchor is left at the
value it currently holds.  The old rotation `(0, 0, 0, -1)` is rebuilt as
`from_euler` of its raw components, i.e. `from_euler(0, 0, 0)` — exactly
the identity quaternion `(0, 0, 0, 1)` in glam too — a different value;
the old sRGB-variant color and the old `Anchor::Center` are rebuilt as
`RgbaLinear` and `Anchor::Custom` values, different constructors
regardless of any channel arithmetic. -/
theorem claim_C8_counterexample :
    emptyTransformTrack.rotation_x.value 1 = none ∧
    emptyTransformTrack.rotation_y.value 1 = none ∧
    emptyTransformTrack.rotation_z.value 1 = none ∧
    (transform_track_system fromEulerModel 1 counterTransform
        emptyTransformTrack).rotation ≠ counterTransform.rotation ∧
    emptySpriteTrack.color_r.value 1 = none ∧
    emptySpriteTrack.color_g.value 1 = none ∧
    emptySpriteTrack.color_b.value 1 = none ∧
    emptySpriteTrack.color_a.value 1 = none ∧
    (sprite_track_system linearToSrgbModel 1 counterSprite
        emptySpriteTrack).color ≠ counterSprite.color ∧
    emptySpriteTrack.anchor_x.value 1 = none ∧
    emptySpriteTrack.anchor_y.value 1 = none ∧
    (sprite_track_system linearToSrgbModel 1 counterSprite
        emptySpriteTrack).anchor ≠ counterSprite.anchor := by
  refine ⟨rfl, rfl, rfl, ?_, rfl, rfl, rfl, rfl, ?_, rfl, rfl, ?_⟩
  · simp only [transform_track_system, counterTransform, emptyTransformTrack,
      Track.new, Track.value, Option.getD_none, fromEulerModel]
    intro h
    have hw := congrArg Quat.w h
    norm_num at hw
  · intro h
    exact Color.noConfusion h
  · intro h
    exact Anchor.noConfusion h

/-- Claim C8 as amended: a `None` evaluation is never fatal and never
zeroes a property, and every *directly stored* field falls back to the
value read from the current state: translation, scale and the flip
booleans are left exactly as they were, as is the anchor's vector value
componentwise.  The rotation, the color and the anchor, however, are
rebuilt on every frame: with all their tracks `None` the rotation becomes
`from_euler` of the old quaternion's raw components, the color becomes
`Color::rgba_linear` of the old color's sRGB channel readings, and the
anchor becomes `Anchor::Custom` of its old vector — an `Anchor::Custom`
anchor (the only kind the system itself produces) is preserved exactly. -/
theorem claim_C8_fallback_fields (fe : Scalar → Scalar → Scalar → Quat)
    (conv : Scalar → Scalar) (d : Scalar) (tf : Transform)
    (tr : TransformTrack) (sp : Sprite) (st : SpriteTrack) (v : Vec2) :
    (tr.position_x.value d = none →
      (transform_track_system fe d tf tr).translation.x =
        tf.translation.x) ∧
    (tr.position_y.value d = none →
      (transform_track_system fe d tf tr).translation.y =
        tf.translation.y) ∧
    (tr.position_z.value d = none →
      (transform_track_system fe d tf tr).translation.z =
        tf.translation.z) ∧
    (tr.scale_x.value d = none →
      (transform_track_system fe d tf tr).scale.x = tf.scale.x) ∧
    (tr.scale_y.value d = none →
      (transform_track_system fe d tf tr).scale.y = tf.scale.y) ∧
    (tr.scale_z.value d = none →
      (transform_track_system fe d tf tr).scale.z = tf.scale.z) ∧
    (tr.rotation_x.value d = none → tr.rotation_y.value d = none →
      tr.rotation_z.value d = none →
      (transform_track_system fe d tf tr).rotation =
        fe tf.rotation.x tf.rotation.y tf.rotation.z) ∧
    (st.color_r.value d = none → st.color_g.value d = none →
      st.color_b.value d = none → st.color_a.value d = none →
      (sprite_track_system conv d sp st).color =
        Color.rgbaLinear (sp.color.r conv) (sp.color.g conv)
          (sp.color.b conv) sp.color.a) ∧
    (st.flip_x.value d = none →
      (sprite_track_system conv d sp st).flip_x = sp.flip_x) ∧
    (st.flip_y.value d = none →
      (sprite_track_system conv d sp st).flip_y = sp.flip_y) ∧
    (st.anchor_x.value d = none →
      ((sprite_track_system conv d sp st).anchor).asVec.x =
        sp.anchor.asVec.x) ∧
    (st.anchor_y.value d = none →
      ((sprite_track_system conv d sp st).anchor).asVec.y =
        sp.anchor.asVec.y) ∧
    (st.anchor_x.value d = none → st.anchor_y.value d = none →
      sp.anchor = Anchor.custom v →
      (sprite_track_system conv d sp st).anchor = sp.anchor) := by
  refine ⟨?_, ?_, ?_, ?_, ?_, ?_, ?_, ?_, ?_, ?_, ?_, ?_, ?_⟩ <;>
  · intros
    simp [transform_track_system, sprite_track_system, Anchor.asVec, *]

/-- Claim C8 witness: with all tracks empty (every evaluation `none`) and
the model collaborator instances, every directly stored field equals the
sample component's current value, the anchor vector is preserved
componentwise (and the `Custom` anchor exactly), and the rotation and
color take their re-encoded forms. -/
theorem claim_C8_witness :
    (emptyTransformTrack.position_x.value 1 = none ∧
      (transform_track_system fromEulerModel 1 sampleTransform
        emptyTransformTrack).translation.x =
        sampleTransform.translation.x) ∧
    (emptyTransformTrack.position_y.value 1 = none ∧
      (transform_track_system fromEulerModel 1 sampleTransform
        emptyTransformTrack).translation.y =
        sampleTransform.translation.y) ∧
    (emptyTransformTrack.position_z.value 1 = none ∧
      (transform_track_system fromEulerModel 1 sampleTransform
        emptyTransformTrack).translation.z =
        sampleTransform.translation.z) ∧
    (emptyTransformTrack.scale_x.value 1 = none ∧
      (transform_track_system fromEulerModel 1 sampleTransform
        emptyTransformTrack).scale.x = sampleTransform.scale.x) ∧
    (emptyTransformTrack.scale_y.value 1 = none ∧
      (transform_track_system fromEulerModel 1 sampleTransform
        emptyTransformTrack).scale.y = sampleTransform.scale.y) ∧
    (emptyTransformTrack.scale_z.value 1 = none ∧
      (transform_track_system fromEulerModel 1 sampleTransform
        emptyTransformTrack).scale.z = sampleTransform.scale.z) ∧
    (emptyTransformTrack.rotation_x.value 1 = none ∧
      emptyTransformTrack.rotation_y.value 1 = none ∧
      emptyTransformTrack.rotation_z.value 1 = none ∧
      (transform_track_system fromEulerModel 1 sampleTransform
        emptyTransformTrack).rotation =
        fromEulerModel sampleTransform.rotation.x sampleTransform.rotation.y
          sampleTransform.rotation.z) ∧
    (emptySpriteTrack.color_r.value 1 = none ∧
      emptySpriteTrack.color_g.value 1 = none ∧
      emptySpriteTrack.color_b.value 1 = none ∧
      emptySpriteTrack.color_a.value 1 = none ∧
      (sprite_track_system linearToSrgbModel 1 sampleSprite
        emptySpriteTrack).color =
        Color.rgbaLinear (sampleSprite.color.r linearToSrgbModel)
          (sampleSprite.color.g linearToSrgbModel)
          (sampleSprite.color.b linearToSrgbModel) sampleSprite.color.a) ∧
    (emptySpriteTrack.flip_x.value 1 = none ∧
      (sprite_track_system linearToSrgbModel 1 sampleSprite
        emptySpriteTrack).flip_x = sampleSprite.flip_x) ∧
    (emptySpriteTrack.flip_y.value 1 = none ∧
      (sprite_track_system linearToSrgbModel 1 sampleSprite
        emptySpriteTrack).flip_y = sampleSprite.flip_y) ∧
    (emptySpriteTrack.anchor_x.value 1 = none ∧
      ((sprite_track_system linearToSrgbModel 1 sampleSprite
        emptySpriteTrack).anchor).asVec.x = sampleSprite.anchor.asVec.x) ∧
    (emptySpriteTrack.anchor_y.value 1 = none ∧
      ((sprite_track_system linearToSrgbModel 1 sampleSprite
        emptySpriteTrack).anchor).asVec.y = sampleSprite.anchor.asVec.y) ∧
    (emptySpriteTrack.anchor_x.value 1 = none ∧
      emptySpriteTrack.anchor_y.value 1 = none ∧
      sampleSprite.anchor = Anchor.custom ⟨10, 11⟩ ∧
      (sprite_track_system linearToSrgbModel 1 sampleSprite
        emptySpriteTrack).anchor = sampleSprite.anchor) := by
  obtain ⟨g1, g2, g3, g4, g5, g6, g7, g8, g9, g10, g11, g12, g13⟩ :=
    claim_C8_fallback_fields fromEulerModel linearToSrgbModel 1
      sampleTransform emptyTransformTrack sampleSprite emptySpriteTrack
      ⟨10, 11⟩
  exact ⟨⟨rfl, g1 rfl⟩, ⟨rfl, g2 rfl⟩, ⟨rfl, g3 rfl⟩, ⟨rfl, g4 rfl⟩,
    ⟨rfl, g5 rfl⟩, ⟨rfl, g6 rfl⟩, ⟨rfl, rfl, rfl, g7 rfl rfl rfl⟩,
    ⟨rfl, rfl, rfl, rfl, g8 rfl rfl rfl rfl⟩, ⟨rfl, g9 rfl⟩,
    ⟨rfl, g10 rfl⟩, ⟨rfl, g11 rfl⟩, ⟨rfl, g12 rfl⟩,
    ⟨rfl, rfl, rfl, g13 rfl rfl rfl⟩⟩

/-- Claim C9: for both evaluators, `value` is `none` exactly when the track
has fewer than two keys; in particular any track with at least two keys
produces a value for *every* elapsed input, negative times included. -/
theorem claim_C9_none_iff_short (t : Track) (b : BoolTrack) (e : Scalar) :
    (t.value e = none ↔ t.keys.length < 2) ∧
    (b.value e = none ↔ b.keys.length < 2) :=
  ⟨Track.value_eq_none_iff t e, BoolTrack.bool_value_eq_none_iff b e⟩

/-- Claim C10: the first key's duration is never read during evaluation —
two tracks (scalar or boolean) that differ only in their first key's
duration evaluate identically at every elapsed time (the first key enters
the walk only as `previous_key`, whose `value` field alone is consumed). -/
theorem claim_C10_first_duration_unread (v d d' : Scalar)
    (eo : Option EaseFunction) (rest : List Key) (bv : Bool)
    (bd bd' : Scalar) (brest : List BoolKey) (e : Scalar) :
    Track.value ⟨⟨v, d, eo⟩ :: rest⟩ e =
        Track.value ⟨⟨v, d', eo⟩ :: rest⟩ e ∧
    BoolTrack.value ⟨⟨bv, bd⟩ :: brest⟩ e =
        BoolTrack.value ⟨⟨bv, bd'⟩ :: brest⟩ e :=
  ⟨Track.walk_congr_prev rest ⟨v, d, eo⟩ ⟨v, d', eo⟩ rfl e none,
    BoolTrack.bool_walk_congr_prev brest ⟨bv, bd⟩ ⟨bv, bd'⟩ rfl e none⟩

end Typomation
